import Mathlib

/-!
Verification of `scripts/scrape_availability.py` (sock-ordering-app).

The script reads `data/catalog.json`, seeds an availability map (every size
listed in the catalog set to `True`), applies the embedded constant
`BUILTIN_OVERRIDES`, optionally applies `data/overrides.json` on top
(silently swallowing any exception raised while reading, parsing or applying
it), and writes `{updatedAt, styles}` to `data/availability.json`.

The embedding below models parsed JSON values with the inductive `Json`
(numbers are modelled as integers; none of the repository's data uses
fractional numbers), Python dicts as insertion-ordered association lists
(`dictFind` / `dictSet` mirror dict lookup and `d[k] = v`, which updates an
existing key in place and appends a new key at the end; objects produced by
`json.load` always have distinct keys), and a raised Python exception as
`Except.error` carrying the exception's name.
-/

set_option maxHeartbeats 1000000

/-- A parsed JSON document (Python object as returned by `json.load`). -/
inductive Json where
  | null : Json
  | bool (b : Bool) : Json
  | num (n : Int) : Json
  | str (s : String) : Json
  | arr (elems : List Json) : Json
  | obj (fields : List (String × Json)) : Json

mutual

/-- Decidable equality of parsed JSON values. -/
def Json.decEq : (a b : Json) → Decidable (a = b)
  | .null, .null => isTrue rfl
  | .bool a, .bool b =>
      if h : a = b then isTrue (h ▸ rfl) else isFalse (fun hh => h (Json.bool.inj hh))
  | .num a, .num b =>
      if h : a = b then isTrue (h ▸ rfl) else isFalse (fun hh => h (Json.num.inj hh))
  | .str a, .str b =>
      if h : a = b then isTrue (h ▸ rfl) else isFalse (fun hh => h (Json.str.inj hh))
  | .arr xs, .arr ys =>
      match Json.decEqList xs ys with
      | isTrue h => isTrue (h ▸ rfl)
      | isFalse h => isFalse (fun hh => h (Json.arr.inj hh))
  | .obj xs, .obj ys =>
      match Json.decEqFields xs ys with
      | isTrue h => isTrue (h ▸ rfl)
      | isFalse h => isFalse (fun hh => h (Json.obj.inj hh))
  | .null, .bool _ => isFalse Json.noConfusion
  | .null, .num _ => isFalse Json.noConfusion
  | .null, .str _ => isFalse Json.noConfusion
  | .null, .arr _ => isFalse Json.noConfusion
  | .null, .obj _ => isFalse Json.noConfusion
  | .bool _, .null => isFalse Json.noConfusion
  | .bool _, .num _ => isFalse Json.noConfusion
  | .bool _, .str _ => isFalse Json.noConfusion
  | .bool _, .arr _ => isFalse Json.noConfusion
  | .bool _, .obj _ => isFalse Json.noConfusion
  | .num _, .null => isFalse Json.noConfusion
  | .num _, .bool _ => isFalse Json.noConfusion
  | .num _, .str _ => isFalse Json.noConfusion
  | .num _, .arr _ => isFalse Json.noConfusion
  | .num _, .obj _ => isFalse Json.noConfusion
  | .str _, .null => isFalse Json.noConfusion
  | .str _, .bool _ => isFalse Json.noConfusion
  | .str _, .num _ => isFalse Json.noConfusion
  | .str _, .arr _ => isFalse Json.noConfusion
  | .str _, .obj _ => isFalse Json.noConfusion
  | .arr _, .null => isFalse Json.noConfusion
  | .arr _, .bool _ => isFalse Json.noConfusion
  | .arr _, .num _ => isFalse Json.noConfusion
  | .arr _, .str _ => isFalse Json.noConfusion
  | .arr _, .obj _ => isFalse Json.noConfusion
  | .obj _, .null => isFalse Json.noConfusion
  | .obj _, .bool _ => isFalse Json.noConfusion
  | .obj _, .num _ => isFalse Json.noConfusion
  | .obj _, .str _ => isFalse Json.noConfusion
  | .obj _, .arr _ => isFalse Json.noConfusion

/-- Decidable equality of JSON array contents. -/
def Json.decEqList : (xs ys : List Json) → Decidable (xs = ys)
  | [], [] => isTrue rfl
  | [], _ :: _ => isFalse (fun h => List.noConfusion h)
  | _ :: _, [] => isFalse (fun h => List.noConfusion h)
  | x :: xs, y :: ys =>
      match Json.decEq x y with
      | isFalse h => isFalse (fun hh => h (List.cons.inj hh).1)
      | isTrue h1 =>
          match Json.decEqList xs ys with
          | isTrue h2 => isTrue (h1 ▸ h2 ▸ rfl)
          | isFalse h => isFalse (fun hh => h (List.cons.inj hh).2)

/-- Decidable equality of JSON object contents. -/
def Json.decEqFields : (xs ys : List (String × Json)) → Decidable (xs = ys)
  | [], [] => isTrue rfl
  | [], _ :: _ => isFalse (fun h => List.noConfusion h)
  | _ :: _, [] => isFalse (fun h => List.noConfusion h)
  | (k1, v1) :: xs, (k2, v2) :: ys =>
      if hk : k1 = k2 then
          match Json.decEq v1 v2 with
          | isFalse h => isFalse (fun hh => h (congrArg Prod.snd (List.cons.inj hh).1))
          | isTrue hv =>
              match Json.decEqFields xs ys with
              | isTrue ht => isTrue (hk ▸ hv ▸ ht ▸ rfl)
              | isFalse h => isFalse (fun hh => h (List.cons.inj hh).2)
      else isFalse (fun hh => hk (congrArg Prod.fst (List.cons.inj hh).1))

end

instance : DecidableEq Json := Json.decEq

instance {ε α : Type} [DecidableEq ε] [DecidableEq α] : DecidableEq (Except ε α)
  | .ok a, .ok b =>
      if h : a = b then isTrue (h ▸ rfl) else isFalse (fun hh => h (Except.ok.inj hh))
  | .error a, .error b =>
      if h : a = b then isTrue (h ▸ rfl) else isFalse (fun hh => h (Except.error.inj hh))
  | .ok _, .error _ => isFalse Except.noConfusion
  | .error _, .ok _ => isFalse Except.noConfusion

/-- Raised Python exception, identified by the exception class name. -/
abbrev Err := String

/-- Lookup in an insertion-ordered dict represented as an association list. -/
def dictFind {κ α : Type} [DecidableEq κ] : List (κ × α) → κ → Option α
  | [], _ => none
  | (k, v) :: rest, key => if k = key then some v else dictFind rest key

/-- Python `d[key] = val`: update an existing key in place, else append. -/
def dictSet {κ α : Type} [DecidableEq κ] : List (κ × α) → κ → α → List (κ × α)
  | [], key, val => [(key, val)]
  | (k, v) :: rest, key, val =>
      if k = key then (k, val) :: rest else (k, v) :: dictSet rest key val

/-- Python `key in d`. -/
def dictContains {κ α : Type} [DecidableEq κ] (m : List (κ × α)) (k : κ) : Bool :=
  (dictFind m k).isSome

/-- Inner dict of one style: size label (a hashable Python value) → bool. -/
abbrev PySizeMap := List (Json × Bool)

/-- The working `availability` dict: style id (hashable value) → size dict. -/
abbrev PyAvail := List (Json × PySizeMap)

/-- Python truthiness (`bool(v)`) of a parsed JSON value. -/
def truthy : Json → Bool
  | .null => false
  | .bool b => b
  | .num n => decide (n ≠ 0)
  | .str s => !s.isEmpty
  | .arr xs => !xs.isEmpty
  | .obj kvs => !kvs.isEmpty

/-- Whether a parsed JSON value is hashable (usable as a Python dict key). -/
def hashable : Json → Bool
  | .arr _ => false
  | .obj _ => false
  | _ => true

/-- Python `j.get(key, dflt)`: only dicts have `.get`. -/
def pyGet (j : Json) (key : String) (dflt : Json) : Except Err Json :=
  match j with
  | .obj fields => .ok ((dictFind fields key).getD dflt)
  | _ => .error "AttributeError"

/-- Python `for x in j`: lists yield elements, strings their characters,
dicts their keys; other values are not iterable. -/
def pyIter : Json → Except Err (List Json)
  | .arr xs => .ok xs
  | .str s => .ok (s.data.map (fun c => Json.str (String.mk [c])))
  | .obj fields => .ok (fields.map (fun kv => Json.str kv.fst))
  | _ => .error "TypeError"

/-- Python `j[key]` for a string key: dict lookup (KeyError when missing);
strings and lists reject string subscripts; other values are not
subscriptable. -/
def pySubscr (j : Json) (key : String) : Except Err Json :=
  match j with
  | .obj fields =>
      match dictFind fields key with
      | some v => .ok v
      | none => .error "KeyError"
  | _ => .error "TypeError"

/-- The dict comprehension `{s: True for s in szs}` over an already iterated
size list: each size key must be hashable. -/
def seedSizeList : PySizeMap → List Json → Except Err PySizeMap
  | acc, [] => .ok acc
  | acc, s :: rest =>
      if hashable s then seedSizeList (dictSet acc s true) rest
      else .error "TypeError"

/-- Python `{s: True for s in szs}` for the raw `sizes` value. -/
def seedSizes (szsJ : Json) : Except Err PySizeMap :=
  match pyIter szsJ with
  | .error e => .error e
  | .ok xs => seedSizeList [] xs

/-- One iteration of the seeding loop in `main`:
`style_id = st["id"]; szs = st.get("sizes", []);
availability[style_id] = {s: True for s in szs}`. -/
def seedStyle (av : PyAvail) (st : Json) : Except Err PyAvail :=
  match pySubscr st "id" with
  | .error e => .error e
  | .ok styleId =>
      match pyGet st "sizes" (.arr []) with
      | .error e => .error e
      | .ok szsJ =>
          match seedSizes szsJ with
          | .error e => .error e
          | .ok sm =>
              if hashable styleId then .ok (dictSet av styleId sm)
              else .error "TypeError"

/-- The seeding loop `for st in styles` of `main`, folded over the style
records already produced by iteration. -/
def seedList : PyAvail → List Json → Except Err PyAvail
  | av, [] => .ok av
  | av, st :: rest =>
      match seedStyle av st with
      | .error e => .error e
      | .ok av2 => seedList av2 rest

/-- Steps `styles = catalog.get("styles", [])` (iteration included) and the
seeding loop of `main`, starting from the empty `availability` dict. -/
def seedAvailability (stylesJ : Json) : Except Err PyAvail :=
  match pyIter stylesJ with
  | .error e => .error e
  | .ok sts => seedList [] sts

/-- Python `base[style_id][sz] = v` inside `merge_overrides`: updates the
size dict of the first entry whose key is `styleId`.  (When `styleId` is
absent Python would raise `KeyError`; `merge_overrides` ensures the key is
present before every such assignment, so that case is unreachable and the
map is returned unchanged.) -/
def setSize (b : PyAvail) (styleId sz : Json) (v : Bool) : PyAvail :=
  match b with
  | [] => []
  | (k, sm) :: rest =>
      if k = styleId then (k, dictSet sm sz v) :: rest
      else (k, sm) :: setSize rest styleId sz v

/-- Python `if style_id not in base: base[style_id] = {}`. -/
def ensureStyle (b : PyAvail) (styleId : Json) : PyAvail :=
  if dictContains b styleId then b else b ++ [(styleId, [])]

/-- Effect of the inner loop `for sz, val in size_map.items():
base[style_id][sz] = bool(val)` on the size dict of `style_id` alone. -/
def applySizes (sm : PySizeMap) (fs : List (String × Json)) : PySizeMap :=
  fs.foldl (fun m kv => dictSet m (.str kv.fst) (truthy kv.snd)) sm

/-- The inner loop `for sz, val in size_map.items():
base[style_id][sz] = bool(val)` of `merge_overrides`. -/
def applyStyle (b : PyAvail) (styleId : String) (fs : List (String × Json)) : PyAvail :=
  fs.foldl (fun acc kv => setSize acc (.str styleId) (.str kv.fst) (truthy kv.snd)) b

/-- The loop body of `merge_overrides` over the entries of `extra.items()`.
Processing an entry whose value has no `.items()` (not a dict) raises
`AttributeError` after the containment check has already inserted the empty
dict; the state mutated so far is kept (the caller's dict was updated in
place) and the error is reported alongside it. -/
def mergeEntries : PyAvail → List (String × Json) → PyAvail × Option Err
  | b, [] => (b, none)
  | b, (styleId, sizeMapJ) :: rest =>
      let b1 := ensureStyle b (.str styleId)
      match sizeMapJ with
      | .obj sizeFields => mergeEntries (applyStyle b1 styleId sizeFields) rest
      | _ => (b1, some "AttributeError")

/-- `merge_overrides(base, extra)`: in-place merge
`base[style][size] = bool(extra value)`.  `extra.items()` raises
`AttributeError` unless `extra` is a dict.  Returns the state of `base`
after the call (also when an exception was raised part-way through, since
the mutation is in place) together with the raised exception, if any. -/
def merge_overrides (b : PyAvail) (extra : Json) : PyAvail × Option Err :=
  match extra with
  | .obj entries => mergeEntries b entries
  | _ => (b, some "AttributeError")

/-- The entries of the constant `BUILTIN_OVERRIDES` table of the script. -/
def builtinFields : List (String × Json) := [
  ("sapphire", .obj [("I", .bool true), ("T", .bool false), ("S", .bool false),
    ("M", .bool false), ("L", .bool true), ("XL", .bool true), ("XXL", .bool true)]),
  ("bliss", .obj [("I", .bool true), ("T", .bool true), ("S", .bool true),
    ("M", .bool true), ("L", .bool true), ("XL", .bool true), ("XXL", .bool true)]),
  ("onyx", .obj [("I", .bool true), ("T", .bool true), ("S", .bool true),
    ("M", .bool true), ("L", .bool true), ("XL", .bool true), ("XXL", .bool true)]),
  ("leopard", .obj [("I", .bool true), ("T", .bool true), ("S", .bool true),
    ("M", .bool true), ("L", .bool true), ("XL", .bool true), ("XXL", .bool true)]),
  ("tiger", .obj [("I", .bool true), ("T", .bool true), ("S", .bool true),
    ("M", .bool true), ("L", .bool true), ("XL", .bool true), ("XXL", .bool true)]),
  ("blueblack", .obj [("I", .bool true), ("T", .bool true), ("S", .bool true),
    ("M", .bool true), ("L", .bool true), ("XL", .bool true), ("XXL", .bool true)]),
  ("skyblue", .obj [("T", .bool true), ("S", .bool true)]),
  ("purple", .obj [("M", .bool true)]),
  ("partybag", .obj [("ONESIZE", .bool true)])]

/-- The constant `BUILTIN_OVERRIDES` table of the script. -/
def BUILTIN_OVERRIDES : Json := .obj builtinFields

/-- State of one of the JSON files on disk when the script runs: missing,
present but unreadable, present but not valid JSON, or parsed to a value. -/
inductive FileInput where
  | absent : FileInput
  | unreadable : FileInput
  | unparseable : FileInput
  | parsed (j : Json) : FileInput
deriving DecidableEq

/-- The document written to `data/availability.json`. -/
structure OutputDoc where
  updatedAt : String
  styles : PyAvail
deriving DecidableEq

/-- The computation of the `availability` dict in `main`: get the `styles`
list, seed defaults, apply `BUILTIN_OVERRIDES` (an exception here would be
uncaught), then, when `data/overrides.json` exists and parses, apply it with
every exception swallowed (keeping any partial in-place mutation). -/
def buildStyles (catalogJ : Json) (ovr : FileInput) : Except Err PyAvail :=
  match pyGet catalogJ "styles" (.arr []) with
  | .error e => .error e
  | .ok stylesJ =>
      match seedAvailability stylesJ with
      | .error e => .error e
      | .ok seeded =>
          match merge_overrides seeded BUILTIN_OVERRIDES with
          | (_, some e) => .error e
          | (afterBuiltin, none) =>
              match ovr with
              | .parsed j => .ok (merge_overrides afterBuiltin j).fst
              | _ => .ok afterBuiltin

/-- `main()`: load the catalog (`load_json` raises `FileNotFoundError` /
`OSError` / `json.JSONDecodeError` uncaught), build the availability dict,
and on success write the output document with `updatedAt` set to the current
clock reading (`.ok doc` models the successful write of `doc` and the
printed confirmation line; `.error` models a non-zero exit with no output
written). -/
def build (catFile ovrFile : FileInput) (now : String) : Except Err OutputDoc :=
  match catFile with
  | .absent => .error "FileNotFoundError"
  | .unreadable => .error "OSError"
  | .unparseable => .error "JSONDecodeError"
  | .parsed catalogJ =>
      (buildStyles catalogJ ovrFile).map (fun av => { updatedAt := now, styles := av })

/-- A style record of the documented catalog shape
`{ "id": <string>, "sizes": [<string>, ...] }`. -/
structure StyleRecord where
  id : String
  sizes : List String
deriving DecidableEq

/-- JSON encoding of a well-formed style record. -/
def encodeStyle (r : StyleRecord) : Json :=
  .obj [("id", .str r.id), ("sizes", .arr (r.sizes.map Json.str))]

/-- JSON encoding of a well-formed catalog document. -/
def encodeCatalog (rs : List StyleRecord) : Json :=
  .obj [("styles", .arr (rs.map encodeStyle))]

/-- The size dict seeded for one well-formed style record. -/
def seedSizesT (szs : List String) : PySizeMap :=
  szs.foldl (fun m s => dictSet m (.str s) true) []

/-- The availability dict seeded from a well-formed catalog. -/
def seedT (rs : List StyleRecord) : PyAvail :=
  rs.foldl (fun av r => dictSet av (.str r.id) (seedSizesT r.sizes)) []

/-- Value of the availability dict at a (style, size) pair. -/
def lookup2 (b : PyAvail) (st sz : Json) : Option Bool :=
  (dictFind b st).bind (fun sm => dictFind sm sz)

/-- Value an override document specifies for a (style, size) pair, after
boolean coercion; `none` when the layer does not specify the pair. -/
def jOvrFind (j : Json) (st sz : String) : Option Bool :=
  match j with
  | .obj entries =>
      match dictFind entries st with
      | some (.obj szFields) => (dictFind szFields sz).map truthy
      | _ => none
  | _ => none

/-- Whether a JSON value is an object. -/
def isObj : Json → Bool
  | .obj _ => true
  | _ => false

/-- Whether a JSON value is an object with distinct keys. -/
def innerObjNodup : Json → Bool
  | .obj fs => decide ((fs.map Prod.fst).Nodup)
  | _ => false

/-- A well-formed override document: an object with distinct keys whose
values are objects with distinct keys (every document produced by
`json.load` has distinct keys at every level). -/
def ovrWF : Json → Bool
  | .obj entries =>
      decide ((entries.map Prod.fst).Nodup) && entries.all (fun kv => innerObjNodup kv.snd)
  | _ => false

/-- Value of a successful availability computation at a (style, size) pair
of string keys (`none` when the computation raised). -/
def resultFind (e : Except Err PyAvail) (st sz : String) : Option Bool :=
  match e with
  | .ok av => lookup2 av (.str st) (.str sz)
  | .error _ => none

/-- Size dict of a successful availability computation at a style key
(`none` when the computation raised or the style is absent). -/
def resultEntry (e : Except Err PyAvail) (st : String) : Option PySizeMap :=
  match e with
  | .ok av => dictFind av (.str st)
  | .error _ => none

/-- Update the value of the first entry with the given key, if present. -/
def mapFirst {κ α : Type} [DecidableEq κ] : List (κ × α) → κ → (α → α) → List (κ × α)
  | [], _, _ => []
  | (k, v) :: rest, key, f =>
      if k = key then (k, f v) :: rest else (k, v) :: mapFirst rest key f

theorem dictFind_dictSet_self {κ α : Type} [DecidableEq κ] (m : List (κ × α)) (k : κ) (v : α) :
    dictFind (dictSet m k v) k = some v := by
  induction m with
  | nil => simp [dictSet, dictFind]
  | cons kv rest ih =>
      obtain ⟨k0, v0⟩ := kv
      by_cases h : k0 = k
      · subst h; simp [dictSet, dictFind]
      · simp [dictSet, dictFind, h, ih]

theorem dictFind_dictSet_other {κ α : Type} [DecidableEq κ] (m : List (κ × α)) (k k' : κ)
    (v : α) (h : k' ≠ k) : dictFind (dictSet m k v) k' = dictFind m k' := by
  have hne : ¬(k = k') := fun hh => h hh.symm
  induction m with
  | nil => simp [dictSet, dictFind, hne]
  | cons kv rest ih =>
      obtain ⟨k0, v0⟩ := kv
      by_cases h0 : k0 = k
      · subst h0
        simp [dictSet, dictFind, hne]
      · simp [dictSet, dictFind, h0, ih]

theorem dictFind_isSome_dictSet {κ α : Type} [DecidableEq κ] (m : List (κ × α)) (k k' : κ)
    (v : α) (h : (dictFind m k').isSome = true) :
    (dictFind (dictSet m k v) k').isSome = true := by
  by_cases hk : k' = k
  · subst hk; simp [dictFind_dictSet_self]
  · rwa [dictFind_dictSet_other m k k' v hk]

theorem dictFind_eq_none_of_not_mem {κ α : Type} [DecidableEq κ] (m : List (κ × α)) (k : κ)
    (h : k ∉ m.map Prod.fst) : dictFind m k = none := by
  induction m with
  | nil => rfl
  | cons kv rest ih =>
      obtain ⟨k0, v0⟩ := kv
      simp only [List.map_cons, List.mem_cons] at h
      push_neg at h
      have hne : ¬(k0 = k) := fun hh => h.1 hh.symm
      simp [dictFind, hne, ih h.2]

theorem dictFind_append_of_isSome {κ α : Type} [DecidableEq κ] (m l : List (κ × α)) (k : κ)
    (h : (dictFind m k).isSome = true) : dictFind (m ++ l) k = dictFind m k := by
  induction m with
  | nil => simp [dictFind] at h
  | cons kv rest ih =>
      obtain ⟨k0, v0⟩ := kv
      by_cases h0 : k0 = k
      · simp [dictFind, h0]
      · simp only [dictFind, h0, if_false] at h ⊢
        exact ih h

theorem dictFind_append_of_none {κ α : Type} [DecidableEq κ] (m l : List (κ × α)) (k : κ)
    (h : dictFind m k = none) : dictFind (m ++ l) k = dictFind l k := by
  induction m with
  | nil => simp
  | cons kv rest ih =>
      obtain ⟨k0, v0⟩ := kv
      by_cases h0 : k0 = k
      · simp [dictFind, h0] at h
      · simp only [dictFind, h0, if_false] at h ⊢
        exact ih h

theorem dictSet_same {κ α : Type} [DecidableEq κ] (m : List (κ × α)) (k : κ) (v : α)
    (h : dictFind m k = some v) : dictSet m k v = m := by
  induction m with
  | nil => simp [dictFind] at h
  | cons kv rest ih =>
      obtain ⟨k0, v0⟩ := kv
      by_cases h0 : k0 = k
      · simp only [dictFind, h0, if_true] at h
        simp [dictSet, h0, Option.some.inj h]
      · simp only [dictFind, h0, if_false] at h
        simp [dictSet, h0, ih h]

theorem dictSet_collapse {κ α : Type} [DecidableEq κ] (m : List (κ × α)) (k : κ) (a b : α) :
    dictSet (dictSet m k a) k b = dictSet m k b := by
  induction m with
  | nil => simp [dictSet]
  | cons kv rest ih =>
      obtain ⟨k0, v0⟩ := kv
      by_cases h0 : k0 = k
      · simp [dictSet, h0]
      · simp [dictSet, h0, ih]

theorem dictSet_comm {κ α : Type} [DecidableEq κ] (m : List (κ × α)) (k k2 : κ) (a b : α)
    (hne : k ≠ k2) (h : (dictFind m k).isSome = true) :
    dictSet (dictSet m k a) k2 b = dictSet (dictSet m k2 b) k a := by
  induction m with
  | nil => simp [dictFind] at h
  | cons kv rest ih =>
      obtain ⟨k0, v0⟩ := kv
      by_cases h0 : k0 = k
      · subst h0
        simp [dictSet, hne, fun hh : k0 = k2 => hne hh]
      · by_cases h2 : k0 = k2
        · subst h2
          simp only [dictFind, h0, if_false] at h
          simp [dictSet, h0, fun hh : k0 = k => h0 hh]
        · simp only [dictFind, h0, if_false] at h
          simp [dictSet, h0, h2, ih h]

theorem mapFirst_id {κ α : Type} [DecidableEq κ] (m : List (κ × α)) (k : κ) :
    mapFirst m k (fun v => v) = m := by
  induction m with
  | nil => rfl
  | cons kv rest ih =>
      obtain ⟨k0, v0⟩ := kv
      by_cases h : k0 = k <;> simp [mapFirst, h, ih]

theorem mapFirst_mapFirst {κ α : Type} [DecidableEq κ] (m : List (κ × α)) (k : κ)
    (f g : α → α) : mapFirst (mapFirst m k f) k g = mapFirst m k (fun v => g (f v)) := by
  induction m with
  | nil => rfl
  | cons kv rest ih =>
      obtain ⟨k0, v0⟩ := kv
      by_cases h : k0 = k <;> simp [mapFirst, h, ih]

theorem dictFind_mapFirst_self {κ α : Type} [DecidableEq κ] (m : List (κ × α)) (k : κ)
    (f : α → α) : dictFind (mapFirst m k f) k = (dictFind m k).map f := by
  induction m with
  | nil => rfl
  | cons kv rest ih =>
      obtain ⟨k0, v0⟩ := kv
      by_cases h : k0 = k
      · subst h; simp [mapFirst, dictFind]
      · simp [mapFirst, dictFind, h, ih]

theorem dictFind_mapFirst_other {κ α : Type} [DecidableEq κ] (m : List (κ × α)) (k k' : κ)
    (f : α → α) (h : k' ≠ k) : dictFind (mapFirst m k f) k' = dictFind m k' := by
  induction m with
  | nil => rfl
  | cons kv rest ih =>
      obtain ⟨k0, v0⟩ := kv
      by_cases h0 : k0 = k
      · subst h0
        have hne : ¬(k0 = k') := fun hh => h (hh.symm)
        simp [mapFirst, dictFind, hne]
      · simp [mapFirst, dictFind, h0, ih]

theorem mapFirst_eq_self {κ α : Type} [DecidableEq κ] (m : List (κ × α)) (k : κ) (f : α → α)
    (v : α) (h : dictFind m k = some v) (hf : f v = v) : mapFirst m k f = m := by
  induction m with
  | nil => simp [dictFind] at h
  | cons kv rest ih =>
      obtain ⟨k0, v0⟩ := kv
      by_cases h0 : k0 = k
      · simp only [dictFind, h0, if_true] at h
        simp [mapFirst, h0, Option.some.inj h ▸ hf]
      · simp only [dictFind, h0, if_false] at h
        simp [mapFirst, h0, ih h]

theorem setSize_eq_mapFirst (b : PyAvail) (st sz : Json) (v : Bool) :
    setSize b st sz v = mapFirst b st (fun sm => dictSet sm sz v) := by
  induction b with
  | nil => rfl
  | cons kv rest ih =>
      obtain ⟨k0, sm0⟩ := kv
      by_cases h : k0 = st <;> simp [setSize, mapFirst, h, ih]

theorem ensureStyle_of_isSome (b : PyAvail) (k : Json)
    (h : (dictFind b k).isSome = true) : ensureStyle b k = b := by
  simp [ensureStyle, dictContains, h]

theorem dictFind_ensureStyle_self (b : PyAvail) (k : Json) :
    dictFind (ensureStyle b k) k = some ((dictFind b k).getD []) := by
  unfold ensureStyle dictContains
  cases hf : dictFind b k with
  | some sm => simp [hf]
  | none => simp [hf, dictFind_append_of_none _ _ _ hf, dictFind]

theorem dictFind_ensureStyle_other (b : PyAvail) (k k' : Json) (h : k' ≠ k) :
    dictFind (ensureStyle b k) k' = dictFind b k' := by
  unfold ensureStyle dictContains
  cases hf : dictFind b k with
  | some sm => simp [hf]
  | none =>
      simp only [hf, Option.isSome_none, Bool.false_eq_true, if_false]
      cases hf2 : dictFind b k' with
      | some sm2 => rw [dictFind_append_of_isSome _ _ _ (by simp [hf2]), hf2]
      | none =>
          rw [dictFind_append_of_none _ _ _ hf2]
          have hne : ¬(k = k') := fun hh => h hh.symm
          simp [dictFind, hne, hf2]

theorem applySizes_cons (sm : PySizeMap) (kv : String × Json) (fs : List (String × Json)) :
    applySizes sm (kv :: fs) = applySizes (dictSet sm (.str kv.fst) (truthy kv.snd)) fs := rfl

theorem applyStyle_eq_mapFirst (fs : List (String × Json)) (b : PyAvail) (sid : String) :
    applyStyle b sid fs = mapFirst b (.str sid) (fun sm => applySizes sm fs) := by
  induction fs generalizing b with
  | nil => simp [applyStyle, applySizes, mapFirst_id]
  | cons kv rest ih =>
      have h1 : applyStyle b sid (kv :: rest) =
          applyStyle (setSize b (.str sid) (.str kv.fst) (truthy kv.snd)) sid rest := rfl
      rw [h1, ih, setSize_eq_mapFirst, mapFirst_mapFirst]
      rfl

theorem dictFind_applyStyle_self (b : PyAvail) (sid : String) (fs : List (String × Json)) :
    dictFind (applyStyle b sid fs) (.str sid) =
      (dictFind b (.str sid)).map (fun sm => applySizes sm fs) := by
  rw [applyStyle_eq_mapFirst, dictFind_mapFirst_self]

theorem dictFind_applyStyle_other (b : PyAvail) (sid : String) (fs : List (String × Json))
    (k : Json) (h : k ≠ .str sid) : dictFind (applyStyle b sid fs) k = dictFind b k := by
  rw [applyStyle_eq_mapFirst, dictFind_mapFirst_other _ _ _ _ h]

theorem dictFind_applySizes_not_written (fs : List (String × Json)) (sm : PySizeMap)
    (sz : String) (h : sz ∉ fs.map Prod.fst) :
    dictFind (applySizes sm fs) (.str sz) = dictFind sm (.str sz) := by
  induction fs generalizing sm with
  | nil => rfl
  | cons kv rest ih =>
      simp only [List.map_cons, List.mem_cons] at h
      push_neg at h
      rw [applySizes_cons, ih _ h.2, dictFind_dictSet_other]
      exact fun hh => h.1 (Json.str.inj hh)

theorem dictFind_isSome_applySizes (fs : List (String × Json)) (sm : PySizeMap) (k : Json)
    (h : (dictFind sm k).isSome = true) :
    (dictFind (applySizes sm fs) k).isSome = true := by
  induction fs generalizing sm with
  | nil => exact h
  | cons kv rest ih =>
      rw [applySizes_cons]
      exact ih _ (dictFind_isSome_dictSet _ _ _ _ h)

theorem dictFind_applySizes_nodup (fs : List (String × Json)) (sm : PySizeMap) (sz : String)
    (h : (fs.map Prod.fst).Nodup) :
    dictFind (applySizes sm fs) (.str sz) =
      match dictFind fs sz with
      | some v => some (truthy v)
      | none => dictFind sm (.str sz) := by
  induction fs generalizing sm with
  | nil => rfl
  | cons kv rest ih =>
      obtain ⟨k, v⟩ := kv
      simp only [List.map_cons, List.nodup_cons] at h
      rw [applySizes_cons, ih _ h.2]
      by_cases hsz : k = sz
      · subst hsz
        have hnone : dictFind rest k = none := dictFind_eq_none_of_not_mem _ _ h.1
        simp [dictFind, hnone, dictFind_dictSet_self]
      · have hne : Json.str sz ≠ Json.str k := fun hh => hsz (Json.str.inj hh).symm
        rw [dictFind_dictSet_other _ _ _ _ hne]
        simp [dictFind, hsz]

theorem applySizes_absorb (fs : List (String × Json)) (m : PySizeMap) (k : String) (w : Bool)
    (hmem : k ∈ fs.map Prod.fst) (hsome : (dictFind m (.str k)).isSome = true) :
    applySizes (dictSet m (.str k) w) fs = applySizes m fs := by
  induction fs generalizing m with
  | nil => simp at hmem
  | cons kv rest ih =>
      obtain ⟨k2, v2⟩ := kv
      rw [applySizes_cons, applySizes_cons]
      by_cases hk : k2 = k
      · subst hk
        rw [dictSet_collapse]
      · have hne : Json.str k ≠ Json.str k2 := fun hh => hk (Json.str.inj hh).symm
        have hmem2 : k ∈ rest.map Prod.fst := by
          simp only [List.map_cons, List.mem_cons] at hmem
          rcases hmem with h1 | h2
          · exact absurd h1.symm hk
          · exact h2
        rw [dictSet_comm m (.str k) (.str k2) w (truthy v2) hne hsome]
        exact ih _ hmem2 (dictFind_isSome_dictSet _ _ _ _ hsome)

theorem applySizes_idem (fs : List (String × Json)) (sm : PySizeMap) :
    applySizes (applySizes sm fs) fs = applySizes sm fs := by
  induction fs generalizing sm with
  | nil => rfl
  | cons kv rest ih =>
      obtain ⟨k, v⟩ := kv
      rw [applySizes_cons, applySizes_cons]
      by_cases hmem : k ∈ rest.map Prod.fst
      · have hsome : (dictFind (applySizes (dictSet sm (.str k) (truthy v)) rest)
            (.str k)).isSome = true :=
          dictFind_isSome_applySizes _ _ _ (by rw [dictFind_dictSet_self]; rfl)
        rw [applySizes_absorb rest _ k (truthy v) hmem hsome]
        exact ih _
      · have hfind : dictFind (applySizes (dictSet sm (.str k) (truthy v)) rest)
            (.str k) = some (truthy v) := by
          rw [dictFind_applySizes_not_written rest _ k hmem, dictFind_dictSet_self]
        rw [dictSet_same _ _ _ hfind]
        exact ih _

theorem mergeEntries_cons_obj (b : PyAvail) (sid : String) (fs : List (String × Json))
    (rest : List (String × Json)) :
    mergeEntries b ((sid, Json.obj fs) :: rest) =
      mergeEntries (applyStyle (ensureStyle b (.str sid)) sid fs) rest := rfl

theorem mergeEntries_snd_none (es : List (String × Json)) (b : PyAvail)
    (h : ∀ kv ∈ es, isObj kv.snd = true) : (mergeEntries b es).snd = none := by
  induction es generalizing b with
  | nil => rfl
  | cons kv rest ih =>
      obtain ⟨sid, smJ⟩ := kv
      have hobj := h (sid, smJ) (List.mem_cons_self _ _)
      cases smJ with
      | obj fs =>
          rw [mergeEntries_cons_obj]
          exact ih _ (fun kv2 hkv2 => h kv2 (List.mem_cons_of_mem _ hkv2))
      | null => simp [isObj] at hobj
      | bool x => simp [isObj] at hobj
      | num x => simp [isObj] at hobj
      | str x => simp [isObj] at hobj
      | arr x => simp [isObj] at hobj

theorem lookup2_isSome_ensureStyle (b : PyAvail) (sid : Json) (st sz : Json)
    (h : (lookup2 b st sz).isSome = true) :
    (lookup2 (ensureStyle b sid) st sz).isSome = true := by
  by_cases hc : st = sid
  · subst hc
    unfold lookup2 at h ⊢
    cases hf : dictFind b st with
    | none => simp [hf] at h
    | some sm => rw [dictFind_ensureStyle_self, hf]; simpa [hf] using h
  · unfold lookup2 at h ⊢
    rwa [dictFind_ensureStyle_other _ _ _ hc]

theorem lookup2_isSome_applyStyle (b : PyAvail) (sid : String) (fs : List (String × Json))
    (st sz : Json) (h : (lookup2 b st sz).isSome = true) :
    (lookup2 (applyStyle b sid fs) st sz).isSome = true := by
  by_cases hc : st = Json.str sid
  · subst hc
    unfold lookup2 at h ⊢
    rw [dictFind_applyStyle_self]
    cases hf : dictFind b (Json.str sid) with
    | none => simp [hf] at h
    | some sm =>
        rw [hf] at h
        exact dictFind_isSome_applySizes _ _ _ h
  · unfold lookup2 at h ⊢
    rwa [dictFind_applyStyle_other _ _ _ _ hc]

theorem lookup2_isSome_mergeEntries (es : List (String × Json)) (b : PyAvail) (st sz : Json)
    (h : (lookup2 b st sz).isSome = true) :
    (lookup2 (mergeEntries b es).fst st sz).isSome = true := by
  induction es generalizing b with
  | nil => exact h
  | cons kv rest ih =>
      obtain ⟨sid, smJ⟩ := kv
      cases smJ with
      | obj fs =>
          rw [mergeEntries_cons_obj]
          exact ih _ (lookup2_isSome_applyStyle _ _ _ _ _ (lookup2_isSome_ensureStyle _ _ _ _ h))
      | null => exact lookup2_isSome_ensureStyle _ _ _ _ h
      | bool x => exact lookup2_isSome_ensureStyle _ _ _ _ h
      | num x => exact lookup2_isSome_ensureStyle _ _ _ _ h
      | str x => exact lookup2_isSome_ensureStyle _ _ _ _ h
      | arr x => exact lookup2_isSome_ensureStyle _ _ _ _ h

theorem dictFind_isSome_ensureStyle (b : PyAvail) (sid k : Json)
    (h : (dictFind b k).isSome = true) :
    (dictFind (ensureStyle b sid) k).isSome = true := by
  by_cases hc : k = sid
  · subst hc; rw [dictFind_ensureStyle_self]; rfl
  · rwa [dictFind_ensureStyle_other _ _ _ hc]

theorem dictFind_isSome_applyStyle (b : PyAvail) (sid : String) (fs : List (String × Json))
    (k : Json) (h : (dictFind b k).isSome = true) :
    (dictFind (applyStyle b sid fs) k).isSome = true := by
  by_cases hc : k = Json.str sid
  · subst hc
    rw [dictFind_applyStyle_self]
    cases hf : dictFind b (Json.str sid) with
    | none => simp [hf] at h
    | some sm => rfl
  · rwa [dictFind_applyStyle_other _ _ _ _ hc]

theorem dictFind_isSome_mergeEntries (es : List (String × Json)) (b : PyAvail) (k : Json)
    (h : (dictFind b k).isSome = true) :
    (dictFind (mergeEntries b es).fst k).isSome = true := by
  induction es generalizing b with
  | nil => exact h
  | cons kv rest ih =>
      obtain ⟨sid, smJ⟩ := kv
      cases smJ with
      | obj fs =>
          rw [mergeEntries_cons_obj]
          exact ih _ (dictFind_isSome_applyStyle _ _ _ _ (dictFind_isSome_ensureStyle _ _ _ h))
      | null => exact dictFind_isSome_ensureStyle _ _ _ h
      | bool x => exact dictFind_isSome_ensureStyle _ _ _ h
      | num x => exact dictFind_isSome_ensureStyle _ _ _ h
      | str x => exact dictFind_isSome_ensureStyle _ _ _ h
      | arr x => exact dictFind_isSome_ensureStyle _ _ _ h

theorem dictFind_mergeEntries_not_written (es : List (String × Json)) (b : PyAvail) (k : Json)
    (h : ∀ e ∈ es, Json.str e.fst ≠ k) :
    dictFind (mergeEntries b es).fst k = dictFind b k := by
  induction es generalizing b with
  | nil => rfl
  | cons kv rest ih =>
      obtain ⟨sid, smJ⟩ := kv
      have hk : k ≠ Json.str sid := fun hh => h (sid, smJ) (List.mem_cons_self _ _) hh.symm
      have hrest : ∀ e ∈ rest, Json.str e.fst ≠ k :=
        fun e he => h e (List.mem_cons_of_mem _ he)
      cases smJ with
      | obj fs =>
          rw [mergeEntries_cons_obj, ih _ hrest, dictFind_applyStyle_other _ _ _ _ hk,
            dictFind_ensureStyle_other _ _ _ hk]
      | null => exact dictFind_ensureStyle_other _ _ _ hk
      | bool x => exact dictFind_ensureStyle_other _ _ _ hk
      | num x => exact dictFind_ensureStyle_other _ _ _ hk
      | str x => exact dictFind_ensureStyle_other _ _ _ hk
      | arr x => exact dictFind_ensureStyle_other _ _ _ hk

theorem mergeEntries_lookup (es : List (String × Json)) (b : PyAvail) (st sz : String)
    (h1 : (es.map Prod.fst).Nodup) (h2 : ∀ kv ∈ es, innerObjNodup kv.snd = true) :
    lookup2 (mergeEntries b es).fst (.str st) (.str sz) =
      match jOvrFind (.obj es) st sz with
      | some v => some v
      | none => lookup2 b (.str st) (.str sz) := by
  induction es generalizing b with
  | nil => simp [mergeEntries, jOvrFind, dictFind]
  | cons kv rest ih =>
      obtain ⟨sid, smJ⟩ := kv
      have hinner := h2 (sid, smJ) (List.mem_cons_self _ _)
      simp only [List.map_cons, List.nodup_cons] at h1
      have hrest2 : ∀ kv ∈ rest, innerObjNodup kv.snd = true :=
        fun kv2 hkv2 => h2 kv2 (List.mem_cons_of_mem _ hkv2)
      cases smJ with
      | obj fs =>
          have hfs : (fs.map Prod.fst).Nodup := of_decide_eq_true hinner
          rw [mergeEntries_cons_obj, ih _ h1.2 hrest2]
          by_cases hst : sid = st
          · subst hst
            have hnone : dictFind rest sid = none := dictFind_eq_none_of_not_mem _ _ h1.1
            have hlhs : jOvrFind (.obj rest) sid sz = none := by
              simp [jOvrFind, hnone]
            rw [hlhs]
            have houter : dictFind (applyStyle (ensureStyle b (.str sid)) sid fs)
                (Json.str sid) =
                some (applySizes ((dictFind b (Json.str sid)).getD []) fs) := by
              rw [dictFind_applyStyle_self, dictFind_ensureStyle_self]
              rfl
            unfold lookup2
            rw [houter]
            show dictFind (applySizes ((dictFind b (Json.str sid)).getD []) fs)
                (Json.str sz) = _
            rw [dictFind_applySizes_nodup _ _ _ hfs]
            have hrhs : jOvrFind (.obj ((sid, Json.obj fs) :: rest)) sid sz =
                (dictFind fs sz).map truthy := by
              simp [jOvrFind, dictFind]
            rw [hrhs]
            cases hfsz : dictFind fs sz with
            | some v => simp
            | none =>
                simp only [Option.map_none]
                cases hb : dictFind b (Json.str sid) with
                | some sm => simp [hb]
                | none => simp [hb, dictFind]
          · have hne : Json.str st ≠ Json.str sid := fun hh => hst (Json.str.inj hh).symm
            have hhead : jOvrFind (.obj ((sid, Json.obj fs) :: rest)) st sz =
                jOvrFind (.obj rest) st sz := by
              simp [jOvrFind, dictFind, hst]
            rw [hhead]
            have hmid : lookup2 (applyStyle (ensureStyle b (.str sid)) sid fs)
                (Json.str st) (Json.str sz) = lookup2 b (Json.str st) (Json.str sz) := by
              unfold lookup2
              rw [dictFind_applyStyle_other _ _ _ _ hne, dictFind_ensureStyle_other _ _ _ hne]
            rw [hmid]
      | null => simp [innerObjNodup] at hinner
      | bool x => simp [innerObjNodup] at hinner
      | num x => simp [innerObjNodup] at hinner
      | str x => simp [innerObjNodup] at hinner
      | arr x => simp [innerObjNodup] at hinner

theorem mergeEntries_idem (es : List (String × Json)) (b : PyAvail)
    (h1 : (es.map Prod.fst).Nodup) (h2 : ∀ kv ∈ es, isObj kv.snd = true) :
    mergeEntries (mergeEntries b es).fst es = mergeEntries b es := by
  induction es generalizing b with
  | nil => rfl
  | cons kv rest ih =>
      obtain ⟨sid, smJ⟩ := kv
      have hobj := h2 (sid, smJ) (List.mem_cons_self _ _)
      simp only [List.map_cons, List.nodup_cons] at h1
      have hrest2 : ∀ kv ∈ rest, isObj kv.snd = true :=
        fun kv2 hkv2 => h2 kv2 (List.mem_cons_of_mem _ hkv2)
      cases smJ with
      | obj fs =>
          have hmem : ∀ e ∈ rest, Json.str e.fst ≠ Json.str sid := by
            intro e he hh
            exact h1.1 ((Json.str.inj hh) ▸ List.mem_map_of_mem Prod.fst he)
          rw [mergeEntries_cons_obj b sid fs rest]
          set B2 := applyStyle (ensureStyle b (Json.str sid)) sid fs with hB2
          have hb2 : dictFind B2 (Json.str sid) =
              some (applySizes ((dictFind b (Json.str sid)).getD []) fs) := by
            rw [hB2, dictFind_applyStyle_self, dictFind_ensureStyle_self]
            rfl
          have hP : dictFind (mergeEntries B2 rest).fst (Json.str sid) =
              some (applySizes ((dictFind b (Json.str sid)).getD []) fs) := by
            rw [dictFind_mergeEntries_not_written _ _ _ hmem, hb2]
          rw [mergeEntries_cons_obj]
          rw [ensureStyle_of_isSome _ _ (by rw [hP]; rfl)]
          rw [applyStyle_eq_mapFirst,
            mapFirst_eq_self _ _ _ _ hP (applySizes_idem fs _)]
          exact ih _ h1.2 hrest2
      | null => simp [isObj] at hobj
      | bool x => simp [isObj] at hobj
      | num x => simp [isObj] at hobj
      | str x => simp [isObj] at hobj
      | arr x => simp [isObj] at hobj

theorem seedSizeList_strs (szs : List String) (acc : PySizeMap) :
    seedSizeList acc (szs.map Json.str) =
      .ok (szs.foldl (fun m s => dictSet m (.str s) true) acc) := by
  induction szs generalizing acc with
  | nil => rfl
  | cons s rest ih => simp [seedSizeList, hashable, ih]

theorem seedStyle_encode (av : PyAvail) (r : StyleRecord) :
    seedStyle av (encodeStyle r) = .ok (dictSet av (.str r.id) (seedSizesT r.sizes)) := by
  unfold seedStyle encodeStyle pySubscr pyGet seedSizes pyIter
  simp [dictFind, seedSizeList_strs, seedSizesT, hashable]

theorem seedList_encode (rs : List StyleRecord) (av : PyAvail) :
    seedList av (rs.map encodeStyle) =
      .ok (rs.foldl (fun av2 r => dictSet av2 (.str r.id) (seedSizesT r.sizes)) av) := by
  induction rs generalizing av with
  | nil => rfl
  | cons r rest ih => simp [seedList, seedStyle_encode, ih]

theorem seedAvailability_encode (rs : List StyleRecord) :
    seedAvailability (.arr (rs.map encodeStyle)) = .ok (seedT rs) := by
  unfold seedAvailability pyIter seedT
  exact seedList_encode rs []

theorem dictFind_seedSizesT_not_mem (szs : List String) (m : PySizeMap) (sz : String)
    (h : sz ∉ szs) :
    dictFind (szs.foldl (fun m s => dictSet m (.str s) true) m) (.str sz) =
      dictFind m (.str sz) := by
  induction szs generalizing m with
  | nil => rfl
  | cons a rest ih =>
      simp only [List.mem_cons] at h
      push_neg at h
      rw [List.foldl_cons, ih _ h.2, dictFind_dictSet_other]
      exact fun hh => h.1 (Json.str.inj hh)

theorem dictFind_seedSizesT_mem (szs : List String) (m : PySizeMap) (sz : String)
    (h : sz ∈ szs) :
    dictFind (szs.foldl (fun m s => dictSet m (.str s) true) m) (.str sz) = some true := by
  induction szs generalizing m with
  | nil => simp at h
  | cons a rest ih =>
      by_cases hm : sz ∈ rest
      · exact ih _ hm
      · have ha : sz = a := by
          rcases List.mem_cons.mp h with h1 | h2
          · exact h1
          · exact absurd h2 hm
        subst ha
        rw [List.foldl_cons, dictFind_seedSizesT_not_mem rest _ _ hm, dictFind_dictSet_self]

theorem dictFind_seedT_not_mem (rs : List StyleRecord) (av : PyAvail) (st : String)
    (h : st ∉ rs.map StyleRecord.id) :
    dictFind (rs.foldl (fun av2 r => dictSet av2 (.str r.id) (seedSizesT r.sizes)) av)
      (.str st) = dictFind av (.str st) := by
  induction rs generalizing av with
  | nil => rfl
  | cons a rest ih =>
      simp only [List.map_cons, List.mem_cons] at h
      push_neg at h
      rw [List.foldl_cons, ih _ h.2, dictFind_dictSet_other]
      exact fun hh => h.1 (Json.str.inj hh)

theorem dictFind_seedT_mem (rs : List StyleRecord) (av : PyAvail) (r : StyleRecord)
    (hnd : (rs.map StyleRecord.id).Nodup) (hr : r ∈ rs) :
    dictFind (rs.foldl (fun av2 r => dictSet av2 (.str r.id) (seedSizesT r.sizes)) av)
      (.str r.id) = some (seedSizesT r.sizes) := by
  induction rs generalizing av with
  | nil => simp at hr
  | cons a rest ih =>
      simp only [List.map_cons, List.nodup_cons] at hnd
      by_cases hm : r ∈ rest
      · exact ih _ hnd.2 hm
      · have ha : r = a := by
          rcases List.mem_cons.mp hr with h1 | h2
          · exact h1
          · exact absurd h2 hm
        subst ha
        rw [List.foldl_cons, dictFind_seedT_not_mem rest _ _ hnd.1, dictFind_dictSet_self]

theorem lookup2_seedT (rs : List StyleRecord) (r : StyleRecord) (sz : String)
    (hnd : (rs.map StyleRecord.id).Nodup) (hr : r ∈ rs) (hsz : sz ∈ r.sizes) :
    lookup2 (seedT rs) (.str r.id) (.str sz) = some true := by
  unfold lookup2 seedT
  rw [dictFind_seedT_mem rs [] r hnd hr]
  exact dictFind_seedSizesT_mem _ _ _ hsz

theorem buildStyles_encode (rs : List StyleRecord) (ovr : FileInput) :
    buildStyles (encodeCatalog rs) ovr =
      .ok (match ovr with
        | .parsed j => (merge_overrides (mergeEntries (seedT rs) builtinFields).fst j).fst
        | _ => (mergeEntries (seedT rs) builtinFields).fst) := by
  have hsnd : (mergeEntries (seedT rs) builtinFields).snd = none :=
    mergeEntries_snd_none _ _ (by decide)
  have hBI : merge_overrides (seedT rs) BUILTIN_OVERRIDES =
      ((mergeEntries (seedT rs) builtinFields).fst, none) := by
    show mergeEntries (seedT rs) builtinFields = _
    cases hME : mergeEntries (seedT rs) builtinFields with
    | mk ab e =>
        rw [hME] at hsnd
        have he : e = none := hsnd
        subst he
        rfl
  have h1 : pyGet (encodeCatalog rs) "styles" (.arr []) = .ok (.arr (rs.map encodeStyle)) := by
    simp [pyGet, encodeCatalog, dictFind]
  unfold buildStyles
  simp only [h1, seedAvailability_encode, hBI]
  cases ovr <;> rfl

theorem ovrWF_elim (fo : Json) (h : ovrWF fo = true) :
    ∃ entries, fo = Json.obj entries ∧ (entries.map Prod.fst).Nodup ∧
      ∀ kv ∈ entries, innerObjNodup kv.snd = true := by
  cases fo with
  | obj entries =>
      refine ⟨entries, rfl, ?_, ?_⟩
      · simp only [ovrWF, Bool.and_eq_true, decide_eq_true_eq] at h
        exact h.1
      · simp only [ovrWF, Bool.and_eq_true, List.all_eq_true] at h
        exact h.2
  | null => simp [ovrWF] at h
  | bool x => simp [ovrWF] at h
  | num x => simp [ovrWF] at h
  | str x => simp [ovrWF] at h
  | arr x => simp [ovrWF] at h


theorem resultFind_encode_parsed (rs : List StyleRecord) (entries : List (String × Json))
    (st sz : String)
    (h1 : (entries.map Prod.fst).Nodup) (h2 : ∀ kv ∈ entries, innerObjNodup kv.snd = true) :
    resultFind (buildStyles (encodeCatalog rs) (.parsed (.obj entries))) st sz =
      match jOvrFind (.obj entries) st sz with
      | some v => some v
      | none =>
          match jOvrFind BUILTIN_OVERRIDES st sz with
          | some v => some v
          | none => lookup2 (seedT rs) (.str st) (.str sz) := by
  rw [buildStyles_encode]
  show lookup2 (mergeEntries (mergeEntries (seedT rs) builtinFields).fst entries).fst
      (.str st) (.str sz) = _
  rw [mergeEntries_lookup entries _ st sz h1 h2]
  rw [mergeEntries_lookup builtinFields _ st sz (by decide) (by decide)]
  rfl

theorem resultFind_encode_absent (rs : List StyleRecord) (st sz : String) :
    resultFind (buildStyles (encodeCatalog rs) .absent) st sz =
      match jOvrFind BUILTIN_OVERRIDES st sz with
      | some v => some v
      | none => lookup2 (seedT rs) (.str st) (.str sz) := by
  rw [buildStyles_encode]
  show lookup2 (mergeEntries (seedT rs) builtinFields).fst (.str st) (.str sz) = _
  rw [mergeEntries_lookup builtinFields _ st sz (by decide) (by decide)]
  rfl

/-- C1: for every (style, size) pair of the catalog (unique ids, as the data
model requires) and every well-formed override file, the output styles map
holds a boolean decided by layered precedence: the file-override value when
that layer specifies the pair, else the built-in-override value when that
layer specifies it, else the catalog default `true`; in particular a file
override beats a conflicting built-in override. -/
theorem C1_layered_precedence (rs : List StyleRecord) (fo : Json) (r : StyleRecord)
    (sz : String) (hids : (rs.map StyleRecord.id).Nodup) (hfo : ovrWF fo = true)
    (hr : r ∈ rs) (hsz : sz ∈ r.sizes) :
    resultFind (buildStyles (encodeCatalog rs) (.parsed fo)) r.id sz =
      some (match jOvrFind fo r.id sz with
        | some v => v
        | none =>
            match jOvrFind BUILTIN_OVERRIDES r.id sz with
            | some v => v
            | none => true) := by
  obtain ⟨entries, rfl, hnd, hinner⟩ := ovrWF_elim fo hfo
  rw [resultFind_encode_parsed rs entries r.id sz hnd hinner]
  cases hf : jOvrFind (Json.obj entries) r.id sz with
  | some v => rfl
  | none =>
      cases hb : jOvrFind BUILTIN_OVERRIDES r.id sz with
      | some v => rfl
      | none => exact lookup2_seedT rs r sz hids hr hsz

/-- C1 witness: the sapphire/T pair, where the file override `true` wins over
the built-in override `false`. -/
theorem C1_witness :
    ((([⟨"sapphire", ["I", "T", "S", "M", "L", "XL", "XXL"]⟩] : List StyleRecord).map
        StyleRecord.id).Nodup ∧
      ovrWF (Json.obj [("sapphire", Json.obj [("T", Json.bool true)])]) = true) ∧
    resultFind (buildStyles (encodeCatalog [⟨"sapphire", ["I", "T", "S", "M", "L", "XL", "XXL"]⟩])
      (.parsed (Json.obj [("sapphire", Json.obj [("T", Json.bool true)])]))) "sapphire" "T" =
      some true :=
  ⟨⟨by decide, by decide⟩,
    (C1_layered_precedence [⟨"sapphire", ["I", "T", "S", "M", "L", "XL", "XXL"]⟩]
      (Json.obj [("sapphire", Json.obj [("T", Json.bool true)])])
      ⟨"sapphire", ["I", "T", "S", "M", "L", "XL", "XXL"]⟩ "T"
      (by decide) (by decide) (by decide) (by decide)).trans (by decide)⟩

/-- C2: evaluation at the failing input.  With catalog `{"styles": []}` and
override file `{"zz": 5}` (valid JSON whose application raises
`AttributeError` on `5 .items()`), both runs succeed, yet the styles output
differs from the run with the override file absent: the failing style `zz`
was already inserted as an empty dict before the exception was raised and
the in-place mutation survives the silent `except`.  This contradicts the
claim (and the script's own comment) that a malformed override file is
ignored and the output equals the absent-file output. -/
theorem C2_partial_merge_evaluation :
    (build (.parsed (encodeCatalog [])) (.parsed (.obj [("zz", .num 5)])) "t").isOk = true ∧
    (build (.parsed (encodeCatalog [])) .absent "t").isOk = true ∧
    (merge_overrides ((buildStyles (encodeCatalog []) .absent).toOption.getD [])
      (.obj [("zz", .num 5)])).snd = some "AttributeError" ∧
    (build (.parsed (encodeCatalog [])) (.parsed (.obj [("zz", .num 5)])) "t").map
        OutputDoc.styles ≠
      (build (.parsed (encodeCatalog [])) .absent "t").map OutputDoc.styles ∧
    resultEntry (buildStyles (encodeCatalog []) (.parsed (.obj [("zz", .num 5)]))) "zz" =
      some [] := by
  decide

/-- C3 counterexample: the catalog `{"styles": [{"sizes": []}]}` is valid
JSON, so `load_json` succeeds, yet the build terminates with an uncaught
`KeyError` (`st["id"]` on a record without an `"id"` key), refuting that
every successfully loading catalog builds successfully. -/
theorem C3_counterexample :
    build (.parsed (.obj [("styles", .arr [.obj [("sizes", .arr [])]])])) .absent "t" =
      .error "KeyError" := by
  decide

/-- C3 amended: a missing or unparseable catalog file is fatal (uncaught
error, no output document); however catalog-load failure is not the sole
fatal condition — a catalog that parses but deviates from the documented
shape can also raise uncaught (see the counterexample) — while every catalog
that parses to the documented shape builds successfully, whatever the state
of the optional override file. -/
theorem C3_catalog_failures (ovr : FileInput) (t : String) :
    build .absent ovr t = .error "FileNotFoundError" ∧
    build .unparseable ovr t = .error "JSONDecodeError" ∧
    (∀ rs : List StyleRecord, (build (.parsed (encodeCatalog rs)) ovr t).isOk = true) := by
  refine ⟨rfl, rfl, ?_⟩
  intro rs
  show ((buildStyles (encodeCatalog rs) ovr).map
      (fun av => ({ updatedAt := t, styles := av } : OutputDoc))).isOk = true
  rw [buildStyles_encode]
  rfl

/-- C4: a (style, size) pair absent from the catalog but specified by the
file override document or by the built-in override table still appears in
the output with the override's value — the merge is additive, never filtered
by catalog membership; concretely, with `partybag` absent from the catalog,
the output still contains `partybag: {ONESIZE: true}` from the built-in
table. -/
theorem C4_additive_merge (rs : List StyleRecord) (fo : Json) (st sz : String)
    (hids : (rs.map StyleRecord.id).Nodup) (hfo : ovrWF fo = true)
    (habsent : ∀ r ∈ rs, r.id = st → sz ∉ r.sizes) :
    (∀ v, jOvrFind fo st sz = some v →
      resultFind (buildStyles (encodeCatalog rs) (.parsed fo)) st sz = some v) ∧
    (∀ v, jOvrFind fo st sz = none → jOvrFind BUILTIN_OVERRIDES st sz = some v →
      resultFind (buildStyles (encodeCatalog rs) (.parsed fo)) st sz = some v) ∧
    resultEntry (buildStyles (encodeCatalog []) .absent) "partybag" =
      some [(.str "ONESIZE", true)] := by
  obtain ⟨entries, rfl, hnd, hinner⟩ := ovrWF_elim fo hfo
  refine ⟨?_, ?_, by decide⟩
  · intro v hv
    rw [resultFind_encode_parsed rs entries st sz hnd hinner, hv]
  · intro v hv hb
    rw [resultFind_encode_parsed rs entries st sz hnd hinner, hv, hb]

/-- C4 witness: with an empty catalog, a file override introducing the pair
(extra, XX) with truthy value 7 puts it in the output as `true`. -/
theorem C4_witness :
    ovrWF (Json.obj [("extra", Json.obj [("XX", Json.num 7)])]) = true ∧
    resultFind (buildStyles (encodeCatalog [])
      (.parsed (Json.obj [("extra", Json.obj [("XX", Json.num 7)])]))) "extra" "XX" =
      some true :=
  ⟨by decide,
    (C4_additive_merge [] (Json.obj [("extra", Json.obj [("XX", Json.num 7)])]) "extra" "XX"
      (by decide) (by decide) (by decide)).1 true (by decide)⟩

/-- C5: seeding a well-formed catalog (unique ids) sets every listed size of
every style record to `true`; a record with an empty size list yields an
empty but present entry; consequently a catalog pair to which neither the
built-in table nor the (absent or well-formed) file override applies comes
out `true`. -/
theorem C5_seed_defaults (rs : List StyleRecord) (hids : (rs.map StyleRecord.id).Nodup) :
    seedAvailability (.arr (rs.map encodeStyle)) = .ok (seedT rs) ∧
    (∀ r ∈ rs, ∀ sz ∈ r.sizes, lookup2 (seedT rs) (.str r.id) (.str sz) = some true) ∧
    (∀ r ∈ rs, r.sizes = [] → dictFind (seedT rs) (.str r.id) = some []) ∧
    (∀ r ∈ rs, ∀ sz ∈ r.sizes, jOvrFind BUILTIN_OVERRIDES r.id sz = none →
      resultFind (buildStyles (encodeCatalog rs) .absent) r.id sz = some true) ∧
    (∀ fo, ovrWF fo = true → ∀ r ∈ rs, ∀ sz ∈ r.sizes,
      jOvrFind BUILTIN_OVERRIDES r.id sz = none → jOvrFind fo r.id sz = none →
      resultFind (buildStyles (encodeCatalog rs) (.parsed fo)) r.id sz = some true) := by
  refine ⟨seedAvailability_encode rs, ?_, ?_, ?_, ?_⟩
  · intro r hr sz hsz
    exact lookup2_seedT rs r sz hids hr hsz
  · intro r hr hempty
    have h := dictFind_seedT_mem rs [] r hids hr
    rw [hempty] at h
    exact h
  · intro r hr sz hsz hb
    rw [resultFind_encode_absent rs r.id sz, hb]
    exact lookup2_seedT rs r sz hids hr hsz
  · intro fo hfo r hr sz hsz hb hf
    obtain ⟨entries, rfl, hnd, hinner⟩ := ovrWF_elim fo hfo
    rw [resultFind_encode_parsed rs entries r.id sz hnd hinner, hf, hb]
    exact lookup2_seedT rs r sz hids hr hsz

/-- C5 witness: a single style the built-in table does not mention defaults
to `true` for its listed size. -/
theorem C5_witness :
    (([⟨"mystyle", ["QQ"]⟩] : List StyleRecord).map StyleRecord.id).Nodup ∧
    resultFind (buildStyles (encodeCatalog [⟨"mystyle", ["QQ"]⟩]) .absent) "mystyle" "QQ" =
      some true :=
  ⟨by decide,
    (C5_seed_defaults [⟨"mystyle", ["QQ"]⟩] (by decide)).2.2.2.1
      ⟨"mystyle", ["QQ"]⟩ (by decide) "QQ" (by decide) (by decide)⟩

/-- C6: the styles content of the output document is a deterministic
function of the two input files alone — two runs differing only in the clock
reading produce identical styles (only `updatedAt` can differ). -/
theorem C6_clock_independent (cat ovr : FileInput) (t1 t2 : String) :
    (build cat ovr t1).map OutputDoc.styles = (build cat ovr t2).map OutputDoc.styles := by
  cases cat with
  | parsed j =>
      show ((buildStyles j ovr).map (fun av => ({ updatedAt := t1, styles := av } :
          OutputDoc))).map OutputDoc.styles =
        ((buildStyles j ovr).map (fun av => ({ updatedAt := t2, styles := av } :
          OutputDoc))).map OutputDoc.styles
      cases buildStyles j ovr <;> rfl
  | absent => rfl
  | unreadable => rfl
  | unparseable => rfl

/-- C7: for a catalog defining sapphire with sizes I,T,S,M,L,XL,XXL and no
override file, the output entry for sapphire is exactly
I:true, T:false, S:false, M:false, L:true, XL:true, XXL:true. -/
theorem C7_sapphire_example :
    resultEntry (buildStyles (encodeCatalog [⟨"sapphire", ["I", "T", "S", "M", "L", "XL", "XXL"]⟩])
        .absent) "sapphire" =
      some [(.str "I", true), (.str "T", false), (.str "S", false), (.str "M", false),
        (.str "L", true), (.str "XL", true), (.str "XXL", true)] ∧
    (buildStyles (encodeCatalog [⟨"sapphire", ["I", "T", "S", "M", "L", "XL", "XXL"]⟩])
        .absent).isOk = true := by
  decide

/-- C8: applying an override layer stores exactly the boolean coercion of
the supplied value: merging an override that assigns `v` to (style, size)
leaves `bool(v)` in the working map, for any truthy or falsy JSON value. -/
theorem C8_boolean_coercion (b : PyAvail) (st sz : String) (v : Json) :
    lookup2 (merge_overrides b (Json.obj [(st, Json.obj [(sz, v)])])).fst
      (.str st) (.str sz) = some (truthy v) := by
  show lookup2 (mergeEntries b [(st, Json.obj [(sz, v)])]).fst (.str st) (.str sz) = _
  rw [mergeEntries_lookup [(st, Json.obj [(sz, v)])] b st sz (by simp)
    (by
      rintro kv hkv
      simp only [List.mem_singleton] at hkv
      subst hkv
      simp [innerObjNodup])]
  simp [jOvrFind, dictFind]

/-- C9: `merge_overrides` never removes entries — every (style, size) pair
present in the base map before the merge is still present afterwards, for
any extra value, including ones whose application raises part-way. -/
theorem C9_merge_monotone (b : PyAvail) (extra : Json) (st sz : Json)
    (h : (lookup2 b st sz).isSome = true) :
    (lookup2 (merge_overrides b extra).fst st sz).isSome = true := by
  cases extra with
  | obj entries => exact lookup2_isSome_mergeEntries entries b st sz h
  | null => exact h
  | bool x => exact h
  | num x => exact h
  | str x => exact h
  | arr x => exact h

/-- C9 witness: a pair overwritten by a merge (whose application even raises
on a later entry) is still present. -/
theorem C9_witness :
    (lookup2 [(Json.str "a", [(Json.str "S", true)])] (Json.str "a")
      (Json.str "S")).isSome = true ∧
    (lookup2 (merge_overrides [(Json.str "a", [(Json.str "S", true)])]
        (Json.obj [("a", Json.obj [("S", Json.bool false)]), ("b", Json.num 3)])).fst
      (Json.str "a") (Json.str "S")).isSome = true :=
  ⟨by decide, C9_merge_monotone _ _ _ _ (by decide)⟩

/-- C10: `merge_overrides` is idempotent in its extra argument — for every
base map and every extra of the annotated type `Dict[str, Dict[str, bool]]`
(an object with distinct keys whose values are objects), applying the same
extra twice leaves the map exactly as applying it once. -/
theorem C10_merge_idempotent (b : PyAvail) (entries : List (String × Json))
    (h1 : (entries.map Prod.fst).Nodup) (h2 : ∀ kv ∈ entries, isObj kv.snd = true) :
    merge_overrides (merge_overrides b (.obj entries)).fst (.obj entries) =
      merge_overrides b (.obj entries) := by
  show mergeEntries (mergeEntries b entries).fst entries = mergeEntries b entries
  exact mergeEntries_idem entries b h1 h2

/-- C10 witness: a two-entry override applied twice to a non-trivial base. -/
theorem C10_witness :
    ((([("a", Json.obj [("S", Json.bool true)]), ("c", Json.obj [])] :
        List (String × Json)).map Prod.fst).Nodup ∧
      (∀ kv ∈ ([("a", Json.obj [("S", Json.bool true)]), ("c", Json.obj [])] :
        List (String × Json)), isObj kv.snd = true)) ∧
    merge_overrides (merge_overrides [(Json.str "a", [(Json.str "M", false)])]
        (.obj [("a", Json.obj [("S", Json.bool true)]), ("c", Json.obj [])])).fst
      (.obj [("a", Json.obj [("S", Json.bool true)]), ("c", Json.obj [])]) =
      merge_overrides [(Json.str "a", [(Json.str "M", false)])]
        (.obj [("a", Json.obj [("S", Json.bool true)]), ("c", Json.obj [])]) :=
  ⟨⟨by decide, by decide⟩,
    C10_merge_idempotent [(Json.str "a", [(Json.str "M", false)])]
      [("a", Json.obj [("S", Json.bool true)]), ("c", Json.obj [])]
      (by decide) (by decide)⟩
